import Mathlib

/-!
Verification development for the Mean-Time-To-Update (MTTU) analyzer
(`M42_mean_time_to_update/mttu.go`).

The Go source is shallowly embedded: pure functions become Lean functions,
the mutable per-run state of the analyzer loops becomes explicit state
passing, Go maps become association lists, `time.Time` values become `Int`
timestamps (seconds), and the float lag arithmetic is modelled exactly over
`ℚ` (all lag computations in the claims involve only exact values).
-/

namespace Mttu

/-! ## Association lists (model of Go maps)

Go maps are modelled as association lists with update-in-place insertion,
so that lookup after insertion behaves like Go map indexing. -/

/-- Lookup in an association list; models Go `m[k]` with its `ok` flag. -/
def lookupA {α β : Type} [DecidableEq α] : List (α × β) → α → Option β
  | [], _ => none
  | (k, v) :: rest, key => if k = key then some v else lookupA rest key

/-- Update-or-append insertion; models Go `m[k] = v`. -/
def insertA {α β : Type} [DecidableEq α] : List (α × β) → α → β → List (α × β)
  | [], k, v => [(k, v)]
  | (k', v') :: rest, k, v =>
    if k' = k then (k, v) :: rest else (k', v') :: insertA rest k v

/-! ## The version canonicalizer

`mttu.go` delegates to `golang.org/x/mod/semver` (`semver.Canonical`,
`semver.Compare`).  The relevant functions of that library (`parse`,
`parseInt`, `parsePrerelease`, `parseBuild`, `compareInt`,
`comparePrerelease`, `Canonical`, `Compare`) are embedded here over
`List Char`; version strings are ASCII, where Go's byte indexing and
Lean's character lists agree. -/

/-- Decimal digit test used throughout `x/mod/semver`. -/
def isDigitV (c : Char) : Bool := '0' ≤ c && c ≤ '9'

/-- Embeds `semver.parseInt`: a nonempty digit run without leading zeros
(except the single digit `0`), returned with the rest of the input. -/
def parseIntV : List Char → Option (List Char × List Char)
  | [] => none
  | c :: cs =>
    if c < '0' ∨ '9' < c then none
    else
      let t := c :: cs.takeWhile isDigitV
      let rest := cs.dropWhile isDigitV
      if c = '0' ∧ t.length ≠ 1 then none else some (t, rest)

/-- Embeds `semver.isIdentChar`. -/
def isIdentCharV (c : Char) : Bool :=
  ('A' ≤ c && c ≤ 'Z') || ('a' ≤ c && c ≤ 'z') || ('0' ≤ c && c ≤ '9') || c == '-'

/-- Embeds `semver.isNum`: every character is a digit. -/
def isNumV (s : List Char) : Bool := s.all isDigitV

/-- Embeds `semver.isBadNum`: an all-digit identifier with a leading zero. -/
def isBadNumV (s : List Char) : Bool :=
  s.all isDigitV && decide (1 < s.length) && s.head? == some '0'

/-- Embeds `semver.parsePrerelease`: a `-`-introduced, dot-separated list of
nonempty identifiers (no bad numerics), stopping at `+`. -/
def parsePrereleaseV : List Char → Option (List Char × List Char)
  | '-' :: rest =>
    let body := rest.takeWhile (fun c => c ≠ '+')
    let after := rest.dropWhile (fun c => c ≠ '+')
    if body.all (fun c => isIdentCharV c || c == '.') &&
        (body.splitOn '.').all (fun seg => !seg.isEmpty && !isBadNumV seg) then
      some ('-' :: body, after)
    else none
  | _ => none

/-- Embeds `semver.parseBuild`: a `+`-introduced, dot-separated list of
nonempty identifiers reaching the end of the string. -/
def parseBuildV : List Char → Option (List Char × List Char)
  | '+' :: rest =>
    if rest.all (fun c => isIdentCharV c || c == '.') &&
        (rest.splitOn '.').all (fun seg => !seg.isEmpty) then
      some ('+' :: rest, [])
    else none
  | _ => none

/-- Result of `semver.parse`: the `parsed` struct of `x/mod/semver`. -/
structure Parsed where
  major : List Char
  minor : List Char
  patch : List Char
  short : String
  prerelease : List Char
  build : List Char
deriving DecidableEq

/-- Tail of `semver.parse` after the patch number: optional build part,
then the input must be exhausted. -/
def parseTailBuild (maj minr pat pre : List Char) : List Char → Option Parsed
  | [] => some ⟨maj, minr, pat, "", pre, []⟩
  | '+' :: r =>
    match parseBuildV ('+' :: r) with
    | none => none
    | some (bld, r7) => if r7 = [] then some ⟨maj, minr, pat, "", pre, bld⟩ else none
  | _ => none

/-- Tail of `semver.parse` after the patch number: optional prerelease part. -/
def parseTailPre (maj minr pat : List Char) (r5 : List Char) : Option Parsed :=
  match r5 with
  | '-' :: _ =>
    match parsePrereleaseV r5 with
    | none => none
    | some (pre, r6) => parseTailBuild maj minr pat pre r6
  | _ => parseTailBuild maj minr pat [] r5

/-- Embeds `semver.parse`: leading `v`, major[.minor[.patch[-pre][+build]]],
recording the `.0`/`.0.0` completion in `short` exactly as the Go code does. -/
def parseV (v : List Char) : Option Parsed :=
  match v with
  | 'v' :: rest =>
    match parseIntV rest with
    | none => none
    | some (maj, r1) =>
      match r1 with
      | [] => some ⟨maj, ['0'], ['0'], ".0.0", [], []⟩
      | '.' :: r2 =>
        match parseIntV r2 with
        | none => none
        | some (minr, r3) =>
          match r3 with
          | [] => some ⟨maj, minr, ['0'], ".0", [], []⟩
          | '.' :: r4 =>
            match parseIntV r4 with
            | none => none
            | some (pat, r5) => parseTailPre maj minr pat r5
          | _ => none
      | _ => none
  | _ => none

/-- Embeds `semver.Canonical`: strips the build suffix, appends the recorded
`short` completion, or returns the input; empty string when unparsable. -/
def semverCanonical (v : String) : String :=
  match parseV v.toList with
  | none => ""
  | some p =>
    if p.build ≠ [] then ⟨v.toList.take (v.toList.length - p.build.length)⟩
    else if p.short ≠ "" then v ++ p.short
    else v

/-- Go's byte-wise string `<`, on ASCII character lists. -/
def strLtC : List Char → List Char → Bool
  | [], [] => false
  | [], _ :: _ => true
  | _ :: _, [] => false
  | a :: as, b :: bs => if a < b then true else if b < a then false else strLtC as bs

/-- Embeds `semver.compareInt` (numeric strings without leading zeros:
shorter is smaller, equal length falls back to lexicographic order). -/
def compareIntV (x y : List Char) : Int :=
  if x = y then 0
  else if x.length < y.length then -1
  else if y.length < x.length then 1
  else if strLtC x y then -1 else 1

/-- Embeds `semver.nextIdent`: the identifier before the next dot. -/
def nextIdentV (x : List Char) : List Char × List Char :=
  (x.takeWhile (fun c => c ≠ '.'), x.dropWhile (fun c => c ≠ '.'))

/-- Embeds the identifier comparison inside `semver.comparePrerelease`:
numeric identifiers sort before alphanumeric ones, numerics by length
then lexicographically, others lexicographically. -/
def cmpIdentV (dx dy : List Char) : Int :=
  if isNumV dx ≠ isNumV dy then (if isNumV dx then -1 else 1)
  else if isNumV dx ∧ dx.length < dy.length then -1
  else if isNumV dx ∧ dy.length < dx.length then 1
  else if strLtC dx dy then -1 else 1

/-- Loop of `semver.comparePrerelease`: strip the separator, compare the
next identifiers, recurse; a shorter identifier list sorts first. -/
def comparePreLoop (x y : List Char) : Int :=
  match x, y with
  | [], _ => -1
  | _ :: _, [] => 1
  | _ :: xs, _ :: _ =>
    let dx := (nextIdentV xs).1
    let x' := (nextIdentV xs).2
    let dy := (nextIdentV (y.tail)).1
    let y' := (nextIdentV (y.tail)).2
    if dx ≠ dy then cmpIdentV dx dy else comparePreLoop x' y'
termination_by x.length
decreasing_by
  simp only [nextIdentV, List.length_cons]
  exact Nat.lt_succ_of_le (List.dropWhile_suffix _).length_le

/-- Embeds `semver.comparePrerelease`: the empty prerelease (a release)
sorts after any prerelease. -/
def comparePreV (x y : List Char) : Int :=
  if x = y then 0
  else if x = [] then 1
  else if y = [] then -1
  else comparePreLoop x y

/-- Embeds `semver.Compare`: invalid strings sort before valid ones,
then major, minor, patch, prerelease. -/
def semverCompare (v w : String) : Int :=
  match parseV v.toList, parseV w.toList with
  | none, none => 0
  | none, some _ => -1
  | some _, none => 1
  | some pv, some pw =>
    if compareIntV pv.major pw.major ≠ 0 then compareIntV pv.major pw.major
    else if compareIntV pv.minor pw.minor ≠ 0 then compareIntV pv.minor pw.minor
    else if compareIntV pv.patch pw.patch ≠ 0 then compareIntV pv.patch pw.patch
    else comparePreV pv.prerelease pw.prerelease

/-- Go's `strings.HasPrefix(v, "v")`: the first byte is `v`. -/
def hasVPrefix (v : String) : Bool := v.toList.head? == some 'v'

/-- Embeds `canon` from `mttu.go`: canonicalize, retrying with a `v`
prefixed to the input when the first attempt fails. -/
def canon (v : String) : String :=
  let vTemp := semverCanonical v
  let v2 := if vTemp = "" ∧ ¬ hasVPrefix v then "v" ++ v else v
  semverCanonical v2

/-! ## The Update Lag Engine

Embeds the commit loop shared by `analyzeNPM`, `analyzeGo` and `analyzePy`
in `mttu.go` (they differ only in the manifest extractor and release-time
client).  Per visited commit the loop either skips the commit (commit or
manifest blob unavailable), initializes `prev` from the snapshot when the
commit has walk index 0, or diffs every snapshot entry against `prev`.
The release-time resolver is passed in as an oracle
`rel : dependency → raw new version → Option Int` (seconds), collapsing
the registry HTTP client; commit author times are `Int` seconds and the
float day arithmetic `c.Author.When.Sub(rel).Hours() / 24` is modelled
exactly over `ℚ`. -/

/-- One entry of the `out []delay` slice (`delay` struct without the
commit-hash string, which plays no role in the claims). -/
structure Delay where
  dep : String
  oldVer : String
  newVer : String
  days : ℚ
  commitTime : Int
deriving DecidableEq

/-- The mutable state of one analyzer invocation: the running baseline
`prev`, the collected samples `out`, and whether `break CommitLoop` has
fired.  `discarded` is a ghost counter of executions of the
implausible-lag `continue` branch; it influences nothing. -/
structure EngState where
  prev : List (String × String)
  out : List Delay
  halted : Bool
  discarded : Nat
deriving DecidableEq

/-- Initial state of the commit loop (`prev := map[string]string{}`,
`out := []delay{}`). -/
def initES : EngState := ⟨[], [], false, 0⟩

/-- Lag in days: `c.Author.When.Sub(rel).Hours() / 24`, with both times in
seconds; `Rat.divInt` is exact division of the two integers. -/
def lagDays (commitTime relTime : Int) : ℚ := Rat.divInt (commitTime - relTime) 86400

/-- How the per-dependency body of the commit loop classifies one
snapshot entry, following the `continue` chain of `mttu.go` in order. -/
inductive DepOutcome where
  | firstSeen
  | unchanged
  | invalidVer
  | notGreater
  | unresolved
  | lagOutOfRange (oldV : String) (lag : ℚ)
  | accepted (oldV : String) (lag : ℚ)
deriving DecidableEq

/-- Outcomes lying beyond the upgrade checks: the entry was classified as
an upgrade and the engine proceeded to release-time resolution. -/
def DepOutcome.reachedResolver : DepOutcome → Bool
  | .unresolved => true
  | .lagOutOfRange _ _ => true
  | .accepted _ _ => true
  | _ => false

/-- Classification of one `for dep, newV := range curr` iteration against
the baseline `prev`:  missing baseline entry or unchanged raw value,
invalid canonical form, not strictly greater, unresolved release time,
implausible lag, or accepted. -/
def classifyDep (rel : String → String → Option Int) (ctime : Int)
    (prev : List (String × String)) (dep newV : String) : DepOutcome :=
  match lookupA prev dep with
  | none => .firstSeen
  | some oldV =>
    if oldV = newV then .unchanged
    else
      let old := canon oldV
      let nw := canon newV
      if old = "" ∨ nw = "" then .invalidVer
      else if 0 ≤ semverCompare old nw then .notGreater
      else
        match rel dep newV with
        | none => .unresolved
        | some r =>
          let diff := lagDays ctime r
          if diff < 0 ∨ 365 < diff then .lagOutOfRange oldV diff
          else .accepted oldV diff

/-- Effect of one `for dep, newV := range curr` iteration on the loop
state: an accepted entry appends to `out`, then checks the
accepted-change stopping rule (`break CommitLoop` becomes `halted`), and
only when the rule did not fire executes `prev[dep] = newV`; every other
outcome is a bare `continue`, except that the implausible-lag `continue`
ticks the ghost counter. -/
def stepDep (rel : String → String → Option Int) (maxChanges : Int) (ctime : Int)
    (s : EngState) (dep newV : String) : EngState :=
  if s.halted then s
  else
    match classifyDep rel ctime s.prev dep newV with
    | .accepted oldV lag =>
      let out' := s.out ++ [⟨dep, oldV, newV, lag, ctime⟩]
      if 0 < maxChanges ∧ maxChanges ≤ (out'.length : Int) then
        { s with out := out', halted := true }
      else
        { s with prev := insertA s.prev dep newV, out := out' }
    | .lagOutOfRange _ _ => { s with discarded := s.discarded + 1 }
    | _ => s

/-- One visited commit, as the engine sees it: the author time and the
extracted snapshot, `none` when the commit object or manifest blob is
unavailable (the `continue` before extraction). -/
structure CommitM where
  time : Int
  snap : Option (List (String × String))

/-- One iteration of `CommitLoop`: skip unavailable commits, assign
`prev := curr` at walk index 0, otherwise run the per-dependency body
over the snapshot. -/
def processCommit (rel : String → String → Option Int) (maxChanges : Int)
    (s : EngState) (idx : Nat) (c : CommitM) : EngState :=
  if s.halted then s
  else
    match c.snap with
    | none => s
    | some curr =>
      if idx = 0 then { s with prev := curr }
      else curr.foldl (fun s' kv => stepDep rel maxChanges c.time s' kv.1 kv.2) s

/-- The whole commit loop of an analyzer run, over the walked commits in
order. -/
def runEngine (rel : String → String → Option Int) (maxChanges : Int)
    (commits : List CommitM) : EngState :=
  commits.enum.foldl (fun s ic => processCommit rel maxChanges s ic.1 ic.2) initES

/-! ## The Release Time Resolvers

The npm resolver (`timeCache.get`) and the Go resolver (`goRelTime`) are
embedded with the registry HTTP call abstracted into a fetch oracle
(`none` = network/HTTP/JSON failure).  Each call returns the result, the
updated cache, and the number of network fetches it performed (0 or 1),
the latter observing the `http.Get` call sites of the source. -/

/-- A per-run release-time cache: dependency name → version → timestamp
(Go `map[string]map[string]time.Time`). -/
abbrev RelCache : Type := List (String × List (String × Int))

/-- Fetch path of `timeCache.get`: one `http.Get` of the package metadata;
on success the full parsed version→timestamp map is stored under the
package name and the requested version is looked up in it; on failure
nothing is cached. -/
def timeCacheFetch (fetch : String → Option (List (String × Int)))
    (c : RelCache) (pkg ver : String) : Option Int × RelCache × Nat :=
  match fetch pkg with
  | none => (none, c, 1)
  | some m => (lookupA m ver, insertA c pkg m, 1)

/-- Embeds `timeCache.get` (npm): answer from the cache when the package
is cached and the version is known, otherwise fetch. -/
def timeCacheGet (fetch : String → Option (List (String × Int)))
    (c : RelCache) (pkg ver : String) : Option Int × RelCache × Nat :=
  match lookupA c pkg with
  | some m =>
    match lookupA m ver with
    | some t => (some t, c, 0)
    | none => timeCacheFetch fetch c pkg ver
  | none => timeCacheFetch fetch c pkg ver

/-- Embeds `goRelTime`: one `http.Get` of
`proxy.golang.org/<module>/@v/<ver>.info`, which yields the timestamp of
that single version only; on success only the `(module, ver)` entry is
cached. -/
def goRelTime (fetch : String → String → Option Int)
    (c : RelCache) (module ver : String) : Option Int × RelCache × Nat :=
  match lookupA c module with
  | some m =>
    match lookupA m ver with
    | some t => (some t, c, 0)
    | none =>
      match fetch module ver with
      | none => (none, c, 1)
      | some t => (some t, insertA c module (insertA m ver t), 1)
  | none =>
    match fetch module ver with
    | none => (none, c, 1)
    | some t => (some t, insertA c module (insertA [] ver t), 1)

/-- Go `strings.ToLower` on the ASCII package names `pyRel` receives:
one character. -/
def lowerChar (c : Char) : Char :=
  if 'A' ≤ c ∧ c ≤ 'Z' then Char.ofNat (c.toNat + 32) else c

/-- Go `strings.ToLower` on the ASCII package names `pyRel` receives. -/
def strLower (s : String) : String := ⟨s.toList.map lowerChar⟩

/-- Embeds `pyRel`: lower-case the package name, then one `http.Get` of
`pypi.org/pypi/<pkg>/json`.  The fetch oracle returns the parsed
releases map (version → upload time of the first upload; a version with
no uploads or an unparsable time is absent).  Although the response
carries every release, only the single requested `(pkg, ver)` entry is
stored in the cache (`pypiCache[pkg][ver] = t`); on any failure nothing
is cached. -/
def pyRel (fetch : String → Option (List (String × Int)))
    (c : RelCache) (pkg0 ver : String) : Option Int × RelCache × Nat :=
  match lookupA c (strLower pkg0) with
  | some m =>
    match lookupA m ver with
    | some t => (some t, c, 0)
    | none =>
      match fetch (strLower pkg0) with
      | none => (none, c, 1)
      | some rel =>
        match lookupA rel ver with
        | none => (none, c, 1)
        | some t => (some t, insertA c (strLower pkg0) (insertA m ver t), 1)
  | none =>
    match fetch (strLower pkg0) with
    | none => (none, c, 1)
    | some rel =>
      match lookupA rel ver with
      | none => (none, c, 1)
      | some t => (some t, insertA c (strLower pkg0) (insertA [] ver t), 1)

/-! ## The Aggregator

Embeds `mean` and `median` from `mttu.go` over exact rationals
(`float64` arithmetic on the small integral samples of the claims is
exact).  `sort.Float64s` sorts ascending; it is modelled by
`List.insertionSort`, whose result is the unique `≤`-sorted permutation
of the input. -/

/-- Embeds `mean`: 0 for an empty slice, otherwise the accumulated sum
divided by the length. -/
def mean (xs : List ℚ) : ℚ :=
  if xs.length = 0 then 0 else xs.foldl (· + ·) 0 / (xs.length : ℚ)

/-- Embeds `median`: 0 for an empty slice; otherwise sort ascending and
take the middle element (odd length) or the average of the two middle
elements (even length). -/
def median (xs : List ℚ) : ℚ :=
  if xs.length = 0 then 0
  else
    let ys := xs.insertionSort (· ≤ ·)
    let m := ys.length / 2
    if ys.length % 2 = 0 then (ys.getD (m - 1) 0 + ys.getD m 0) / 2
    else ys.getD m 0

/-! ## The Python manifest snapshot extractor

Embeds `pyVersions`, `cfgVersions`, `addDep` and the snapshot merge of
`analyzePy`.  Go strings are byte sequences, so manifest text and names
are modelled as `List Nat` of byte values; the regular expressions
`reqRx`, the local `depLineRx` of `cfgVersions` and `keyRx` are unrolled
into their (deterministic) matching functions.  `strings.ToLower` is
modelled on ASCII letters, which covers every byte its callers feed it
from these manifests. -/

/-- ASCII bytes of a string literal, for writing byte-string inputs. -/
def bsASCII (s : String) : List Nat := s.toList.map Char.toNat

/-- ASCII lowering of one byte (`strings.ToLower`, ASCII fragment). -/
def lowerB (b : Nat) : Nat := if 65 ≤ b ∧ b ≤ 90 then b + 32 else b

/-- ASCII lowering of a byte string. -/
def strLowerB (s : List Nat) : List Nat := s.map lowerB

/-- Byte is an ASCII decimal digit. -/
def isDigitB (b : Nat) : Bool := 48 ≤ b && b ≤ 57

/-- Byte is an ASCII letter. -/
def isAlphaB (b : Nat) : Bool := (65 ≤ b && b ≤ 90) || (97 ≤ b && b ≤ 122)

/-- Character class `[A-Za-z0-9_.\-]` of `reqRx` (group 1). -/
def isReqNameB (b : Nat) : Bool := isAlphaB b || isDigitB b || b == 95 || b == 46 || b == 45

/-- Character class `[0-9A-Za-z.+\-]` of `reqRx` (group 2). -/
def isReqVerB (b : Nat) : Bool := isDigitB b || isAlphaB b || b == 46 || b == 43 || b == 45

/-- Go regexp `\s`: tab, newline, form feed, carriage return, space. -/
def isRxSpaceB (b : Nat) : Bool := b == 9 || b == 10 || b == 12 || b == 13 || b == 32

/-- Go `unicode.IsSpace` on ASCII (the set `strings.TrimSpace` trims). -/
def isTrimSpaceB (b : Nat) : Bool := b == 9 || b == 10 || b == 11 || b == 12 || b == 13 || b == 32

/-- Go `strings.TrimSpace` on byte strings. -/
def goTrimSpaceB (l : List Nat) : List Nat :=
  ((l.dropWhile isTrimSpaceB).reverse.dropWhile isTrimSpaceB).reverse

/-- The version-constraint operator class `[><=!~]` of `depLineRx`. -/
def isOpB (b : Nat) : Bool := b == 62 || b == 60 || b == 61 || b == 33 || b == 126

/-- Matcher of `reqRx` = `^([A-Za-z0-9_.\-]+)==([0-9A-Za-z.+\-]+)$`:
a maximal nonempty name run, the literal `==`, and a nonempty version
run reaching the end of the line. -/
def reqRxMatchB (l : List Nat) : Option (List Nat × List Nat) :=
  let nm := l.takeWhile isReqNameB
  if nm = [] then none
  else
    match l.dropWhile isReqNameB with
    | 61 :: 61 :: ver =>
      if ver ≠ [] ∧ ver.all isReqVerB then some (nm, ver) else none
    | _ => none

/-- Embeds `pyVersions`: scan the lines of `requirements.txt`, skip blank
and `#` lines, and record every `name==version` line under the
lower-cased name. -/
def pyVersions (txt : List Nat) : List (List Nat × List Nat) :=
  (txt.splitOn 10).foldl
    (fun m line =>
      let l := goTrimSpaceB line
      if l.head? = some 35 ∨ l = [] then m
      else
        match reqRxMatchB l with
        | some (nm, ver) => insertA m (strLowerB nm) ver
        | none => m)
    []

/-- Matcher of the local `depLineRx` of `cfgVersions`,
`^([^#;\s][^><=!~\s]*)\s*([><=!~].+)?$`: a name whose first byte is not
`#`, `;` or whitespace, optional whitespace, and an optional constraint
beginning with an operator byte and running to the end of the line. -/
def depLineMatchB (l : List Nat) : Option (List Nat × List Nat) :=
  match l with
  | [] => none
  | c :: rest =>
    if c == 35 || c == 59 || isRxSpaceB c then none
    else
      let nm := c :: rest.takeWhile (fun d => !(isOpB d || isRxSpaceB d))
      let r2 := (rest.dropWhile (fun d => !(isOpB d || isRxSpaceB d))).dropWhile isRxSpaceB
      match r2 with
      | [] => some (nm, [])
      | d :: ds =>
        if isOpB d ∧ ds ≠ [] ∧ ds.all (fun b => b ≠ 10) then some (nm, d :: ds) else none

/-- Go `strings.TrimLeft(v, "=<>!~ ")`. -/
def trimConstraintB (s : List Nat) : List Nat :=
  s.dropWhile (fun b => b == 61 || b == 60 || b == 62 || b == 33 || b == 126 || b == 32)

/-- Embeds `addDep`: skip empty and comment lines, and on a `depLineRx`
match record the lower-cased name with the operator-stripped constraint. -/
def addDep (dst : List (List Nat × List Nat)) (line : List Nat) : List (List Nat × List Nat) :=
  if line = [] ∨ line.head? = some 35 then dst
  else
    match depLineMatchB line with
    | some (nm, cons) => insertA dst (strLowerB nm) (trimConstraintB cons)
    | none => dst

/-- Go `strings.TrimRight(raw, "\r\t ")` in `cfgVersions`. -/
def trimRightCfgB (l : List Nat) : List Nat :=
  (l.reverse.dropWhile (fun b => b == 13 || b == 9 || b == 32)).reverse

/-- Matcher of `keyRx` = `^install_requires\s*=\s*(.*)$`: returns the
captured tail after the `=`. -/
def keyRxMatchB (l : List Nat) : Option (List Nat) :=
  if l.take 16 = bsASCII "install_requires" then
    match (l.drop 16).dropWhile isRxSpaceB with
    | 61 :: r2 => some (r2.dropWhile isRxSpaceB)
    | _ => none
  else none

/-- Block flag after the section-header check of a `cfgVersions` line:
a (right-trimmed) line starting with `[` ends the `install_requires`
block. -/
def cfgInB (st1 : Bool) (l : List Nat) : Bool :=
  if l.head? = some 91 then false else st1

/-- One line of the `cfgVersions` scan: section headers end the
`install_requires` block, a key line opens it (consuming inline entries),
and inside the block indented lines are entries while blank or
non-indented lines end it. -/
def cfgLineStep (st : Bool × List (List Nat × List Nat)) (raw : List Nat) :
    Bool × List (List Nat × List Nat) :=
  match keyRxMatchB (trimRightCfgB raw) with
  | some tail =>
    if goTrimSpaceB tail = [] then (true, st.2)
    else (true, ((goTrimSpaceB tail).splitOn 44).foldl addDep st.2)
  | none =>
    if cfgInB st.1 (trimRightCfgB raw) then
      if goTrimSpaceB (trimRightCfgB raw) = [] then (false, st.2)
      else if raw.head? = some 32 ∨ raw.head? = some 9 then
        (cfgInB st.1 (trimRightCfgB raw), addDep st.2 (goTrimSpaceB (trimRightCfgB raw)))
      else (false, st.2)
    else (cfgInB st.1 (trimRightCfgB raw), st.2)

/-- Embeds `cfgVersions`: fold the line scanner over the lines of
`setup.cfg`. -/
def cfgVersions (txt : List Nat) : List (List Nat × List Nat) :=
  ((txt.splitOn 10).foldl cfgLineStep (false, [])).2

/-- Copying one manifest source into the snapshot under construction
(`for k, v := range ... { curr[k] = v }`): skipped when the file was
unreadable (`none`) or its text empty. -/
def pySourceMap (extract : List Nat → List (List Nat × List Nat))
    (txt : Option (List Nat)) (acc : List (List Nat × List Nat)) :
    List (List Nat × List Nat) :=
  match txt with
  | some t =>
    if t ≠ [] then (extract t).foldl (fun m kv => insertA m kv.1 kv.2) acc else acc
  | none => acc

/-- Snapshot construction of `analyzePy`: start empty, copy the
`requirements.txt` entries in, then copy the `setup.cfg` entries in on
top (overriding on equal keys). -/
def pySnapshot (reqTxt cfgTxt : Option (List Nat)) : List (List Nat × List Nat) :=
  pySourceMap cfgVersions cfgTxt (pySourceMap pyVersions reqTxt [])

/-! ## Behavioral smoke checks of the embedding -/

example : canon "1.0.0" = "v1.0.0" := by decide
example : canon "v1.2.3" = "v1.2.3" := by decide
example : canon "1.2" = "v1.2.0" := by decide
example : canon "^1.0.0" = "" := by decide
example : canon "" = "" := by decide
example : canon "1.0.0-alpha+001" = "v1.0.0-alpha" := by decide
example : semverCompare "v1.0.0" "v1.1.0" = -1 := by decide
example : semverCompare "v1.10.0" "v1.9.0" = 1 := by decide
example : semverCompare "v1.0.0-alpha" "v1.0.0" = -1 := by decide
example : semverCompare "v1.0.0" "v1.0.0" = 0 := by decide

example :
    runEngine (fun _ _ => some 1000) (-1)
      [⟨1000, some [("a", "v1.0.0")]⟩, ⟨2000, some [("a", "v1.1.0")]⟩] =
    ⟨[("a", "v1.1.0")], [⟨"a", "v1.0.0", "v1.1.0", lagDays 2000 1000, 2000⟩], false, 0⟩ := by
  decide

example :
    runEngine (fun _ _ => some 1000) (-1)
      [⟨1000, some [("a", "v1.1.0")]⟩, ⟨2000, some [("a", "v1.0.5")]⟩] =
    ⟨[("a", "v1.1.0")], [], false, 0⟩ := by
  decide

example : pyVersions (bsASCII "# c\nFoo==1.0\nbar==2.0rc1\n") =
    [(bsASCII "foo", bsASCII "1.0"), (bsASCII "bar", bsASCII "2.0rc1")] := by decide
example : cfgVersions (bsASCII "[options]\ninstall_requires =\n    Foo>=2.0\n    baz\n\n[x]\n") =
    [(bsASCII "foo", bsASCII "2.0"), (bsASCII "baz", bsASCII "")] := by decide
example : cfgVersions (bsASCII "install_requires = pkg>=1.2.3, otherpkg\n") =
    [(bsASCII "pkg", bsASCII "1.2.3")] := by decide
example : pySnapshot (some (bsASCII "Foo==1.0")) (some (bsASCII "install_requires = foo>=2.0")) =
    [(bsASCII "foo", bsASCII "2.0")] := by decide

example : pyRel (fun _ => some [("1.0", 50), ("2.0", 60)]) [] "NumPy" "2.0" =
    (some 60, [("numpy", [("2.0", 60)])], 1) := by decide

/-! ## Helper lemmas -/

theorem lagDays_eq_div (c r : Int) : lagDays c r = ((c - r : Int) : ℚ) / 86400 := by
  simp [lagDays, Rat.divInt_eq_div]

theorem lookupA_insertA_self {α β : Type} [DecidableEq α] (m : List (α × β)) (k : α) (v : β) :
    lookupA (insertA m k v) k = some v := by
  induction m with
  | nil => simp [insertA, lookupA]
  | cons hd tl ih =>
    obtain ⟨k', v'⟩ := hd
    by_cases h : k' = k
    · simp [insertA, h, lookupA]
    · simp [insertA, h, lookupA, ih]

theorem lookupA_insertA_ne {α β : Type} [DecidableEq α] (m : List (α × β)) (k k' : α) (v : β)
    (h : k' ≠ k) : lookupA (insertA m k v) k' = lookupA m k' := by
  have hk : ¬ k = k' := fun h' => h h'.symm
  induction m with
  | nil => simp [insertA, lookupA, hk]
  | cons hd tl ih =>
    obtain ⟨k0, v0⟩ := hd
    by_cases h0 : k0 = k
    · subst h0
      simp [insertA, lookupA, hk]
    · simp only [insertA, h0, if_false, lookupA]
      by_cases h1 : k0 = k'
      · simp [h1]
      · simp [h1, ih]

theorem compareIntV_self (x : List Char) : compareIntV x x = 0 := by
  simp [compareIntV]

theorem comparePreV_self (x : List Char) : comparePreV x x = 0 := by
  simp [comparePreV]

/-- Comparing a version string with itself yields 0 (`semver.Compare` is
reflexive in the equality sense). -/
theorem semverCompare_self (v : String) : semverCompare v v = 0 := by
  unfold semverCompare
  cases h : parseV v.toList with
  | none => simp
  | some p => simp [compareIntV_self, comparePreV_self]

/-- A candidate change that fails one of the pre-resolution checks or the
resolver is classified as the corresponding skip outcome. -/
theorem classifyDep_of_rejected (rel : String → String → Option Int) (ctime : Int)
    (prev : List (String × String)) (dep newV oldV : String)
    (hlk : lookupA prev dep = some oldV)
    (hrej : oldV = newV ∨ canon oldV = "" ∨ canon newV = "" ∨
      0 ≤ semverCompare (canon oldV) (canon newV) ∨ rel dep newV = none) :
    classifyDep rel ctime prev dep newV = .unchanged ∨
    classifyDep rel ctime prev dep newV = .invalidVer ∨
    classifyDep rel ctime prev dep newV = .notGreater ∨
    classifyDep rel ctime prev dep newV = .unresolved := by
  unfold classifyDep
  rw [hlk]
  by_cases h1 : oldV = newV
  · simp [h1]
  · simp only [h1, if_false]
    by_cases h2 : canon oldV = "" ∨ canon newV = ""
    · simp [h2]
    · simp only [h2, if_false]
      by_cases h3 : 0 ≤ semverCompare (canon oldV) (canon newV)
      · simp [h3]
      · have h4 : rel dep newV = none := by
          rcases hrej with h | h | h | h | h
          · exact absurd h h1
          · exact absurd (Or.inl h) h2
          · exact absurd (Or.inr h) h2
          · exact absurd h h3
          · exact h
        simp [h3, h4]

/-- A per-dependency iteration classified as anything but accepted or
implausible is a bare `continue`: the state is returned unchanged. -/
theorem stepDep_skip (rel : String → String → Option Int) (maxChanges ctime : Int)
    (s : EngState) (dep newV : String)
    (h : classifyDep rel ctime s.prev dep newV = .firstSeen ∨
      classifyDep rel ctime s.prev dep newV = .unchanged ∨
      classifyDep rel ctime s.prev dep newV = .invalidVer ∨
      classifyDep rel ctime s.prev dep newV = .notGreater ∨
      classifyDep rel ctime s.prev dep newV = .unresolved) :
    stepDep rel maxChanges ctime s dep newV = s := by
  unfold stepDep
  by_cases hh : s.halted
  · simp [hh]
  · rcases h with h | h | h | h | h <;> simp [hh, h]

/-! ## Claim C2 -/

/-- Claim C2 (confirmed).  Baseline invariant: a candidate change that is
skipped or rejected — declared value unchanged, invalid canonical form on
either side, new version not strictly greater, or release-time resolution
failure — leaves the engine state, and in particular the
`RunningBaseline` (`prev`) entry of that dependency, completely
unchanged, so a later commit is compared against the same stale baseline
value. -/
theorem c2_baseline_unchanged_on_reject (rel : String → String → Option Int)
    (maxChanges ctime : Int) (s : EngState) (dep newV oldV : String)
    (hlk : lookupA s.prev dep = some oldV)
    (hrej : oldV = newV ∨ canon oldV = "" ∨ canon newV = "" ∨
      0 ≤ semverCompare (canon oldV) (canon newV) ∨ rel dep newV = none) :
    stepDep rel maxChanges ctime s dep newV = s := by
  have hcd := classifyDep_of_rejected rel ctime s.prev dep newV oldV hlk hrej
  exact stepDep_skip rel maxChanges ctime s dep newV (Or.inr hcd)

/-- Witness for C2: a concrete unresolved change (`rel` refuses the new
version) leaves the concrete baseline untouched. -/
theorem c2_witness :
    lookupA [("a", "v1.0.0")] "a" = some "v1.0.0" ∧
    stepDep (fun _ _ => none) (-1) 2000 ⟨[("a", "v1.0.0")], [], false, 0⟩ "a" "v1.1.0" =
      ⟨[("a", "v1.0.0")], [], false, 0⟩ :=
  ⟨by decide,
    c2_baseline_unchanged_on_reject (fun _ _ => none) (-1) 2000
      ⟨[("a", "v1.0.0")], [], false, 0⟩ "a" "v1.1.0" "v1.0.0" (by decide)
      (Or.inr (Or.inr (Or.inr (Or.inr rfl))))⟩

/-! ## Claim C1 -/

/-- Counterexample for claim C1.  A syntactically valid upgrade
(`v1.0.0 → v1.1.0`) whose release time lies 10 days after the commit time
(lag = −10 days, implausible) leaves `out` — the accepted-change budget —
empty and the baseline at the old version; the claim asserts the event is
counted and the baseline advances to `v1.1.0`. -/
theorem c1_counterexample :
    stepDep (fun _ _ => some (2000 + 864000)) (-1) 2000
        ⟨[("a", "v1.0.0")], [], false, 0⟩ "a" "v1.1.0" =
      ⟨[("a", "v1.0.0")], [], false, 1⟩ ∧
    lookupA [("a", "v1.0.0")] "a" ≠ some "v1.1.0" := by
  constructor
  · decide
  · decide

/-- Claim C1 amended: when the computed lag is implausible (negative or
above 365 days) the sample is excluded from the statistics, the event
does **not** count toward the accepted-change stopping budget, and the
baseline does **not** advance — only the ghost discard counter ticks. -/
theorem c1_implausible_skips_entirely (rel : String → String → Option Int)
    (maxChanges ctime : Int) (s : EngState) (dep newV oldV : String) (lag : ℚ)
    (hh : s.halted = false)
    (hcd : classifyDep rel ctime s.prev dep newV = .lagOutOfRange oldV lag) :
    stepDep rel maxChanges ctime s dep newV = { s with discarded := s.discarded + 1 } := by
  unfold stepDep
  simp [hh, hcd]

/-- Witness for the amended C1 at the counterexample's input. -/
theorem c1_witness :
    classifyDep (fun _ _ => some (2000 + 864000)) 2000 [("a", "v1.0.0")] "a" "v1.1.0" =
      .lagOutOfRange "v1.0.0" (lagDays 2000 (2000 + 864000)) ∧
    stepDep (fun _ _ => some (2000 + 864000)) 7 2000
        ⟨[("a", "v1.0.0")], [], false, 0⟩ "a" "v1.1.0" =
      ⟨[("a", "v1.0.0")], [], false, 1⟩ :=
  ⟨by decide,
    c1_implausible_skips_entirely (fun _ _ => some (2000 + 864000)) 7 2000
      ⟨[("a", "v1.0.0")], [], false, 0⟩ "a" "v1.1.0" "v1.0.0"
      (lagDays 2000 (2000 + 864000)) rfl (by decide)⟩

/-! ## Claim C3 -/

/-- Counterexample for claim C3.  An accepted upgrade that reaches the
accepted-change count (`maxChanges = 1`) emits its sample and halts, but
the baseline still maps the dependency to the old version `v1.0.0`: the
stopping-rule check precedes the baseline advance, contrary to the
claim's "step e precedes step f". -/
theorem c3_counterexample :
    stepDep (fun _ _ => some 1000) 1 2000 ⟨[("a", "v1.0.0")], [], false, 0⟩ "a" "v1.1.0" =
      ⟨[("a", "v1.0.0")], [⟨"a", "v1.0.0", "v1.1.0", lagDays 2000 1000, 2000⟩], true, 0⟩ ∧
    lookupA [("a", "v1.0.0")] "a" ≠ some "v1.1.0" := by
  constructor
  · decide
  · decide

/-- Claim C3 amended: an accepted upgrade always emits its
`UpdateEvent`/`LagSample`; the baseline advances to the new version only
when the event does not reach the accepted-change count — when it does,
the stopping-rule check fires **before** the baseline advance, so the
engine halts with the baseline still at the old version. -/
theorem c3_accept_emits_stop_precedes_advance (rel : String → String → Option Int)
    (maxChanges ctime : Int) (s : EngState) (dep newV oldV : String) (lag : ℚ)
    (hh : s.halted = false)
    (hacc : classifyDep rel ctime s.prev dep newV = .accepted oldV lag) :
    (stepDep rel maxChanges ctime s dep newV).out =
      s.out ++ [⟨dep, oldV, newV, lag, ctime⟩] ∧
    (¬(0 < maxChanges ∧ maxChanges ≤ (s.out.length : Int) + 1) →
      lookupA (stepDep rel maxChanges ctime s dep newV).prev dep = some newV ∧
      (stepDep rel maxChanges ctime s dep newV).halted = false) ∧
    ((0 < maxChanges ∧ maxChanges ≤ (s.out.length : Int) + 1) →
      (stepDep rel maxChanges ctime s dep newV).prev = s.prev ∧
      (stepDep rel maxChanges ctime s dep newV).halted = true) := by
  have hlen : (((s.out ++ [Delay.mk dep oldV newV lag ctime]).length : Nat) : Int) =
      (s.out.length : Int) + 1 := by
    simp
  simp only [stepDep, hh, Bool.false_eq_true, if_false, hacc, hlen]
  by_cases hstop : 0 < maxChanges ∧ maxChanges ≤ (s.out.length : Int) + 1
  · simp [hstop]
  · simp [hstop, lookupA_insertA_self, hh]

/-- Witness for the amended C3: with no accepted-change bound the event is
emitted and the baseline advances to the new version. -/
theorem c3_witness :
    (stepDep (fun _ _ => some 1000) (-1) 2000
        ⟨[("a", "v1.0.0")], [], false, 0⟩ "a" "v1.1.0").out =
      [] ++ [⟨"a", "v1.0.0", "v1.1.0", lagDays 2000 1000, 2000⟩] ∧
    lookupA (stepDep (fun _ _ => some 1000) (-1) 2000
        ⟨[("a", "v1.0.0")], [], false, 0⟩ "a" "v1.1.0").prev "a" = some "v1.1.0" := by
  have h := c3_accept_emits_stop_precedes_advance (fun _ _ => some 1000) (-1) 2000
    ⟨[("a", "v1.0.0")], [], false, 0⟩ "a" "v1.1.0" "v1.0.0" (lagDays 2000 1000) rfl (by decide)
  exact ⟨h.1, (h.2.1 (by decide)).1⟩

/-! ## Claim C4 -/

/-- Counterexample for claim C4.  In the second commit the changed
dependency `a` and the first-seen dependency `b` are equally resolvable
(`rel` answers both with a plausible time), yet the run emits an event
only for `a` and never examines `b`: `b` gets no event and no baseline
entry, so a first-seen dependency is **not** examined like a changed
one. -/
theorem c4_counterexample :
    runEngine (fun _ _ => some 2000) (-1)
        [⟨1000, some [("a", "v1.0.0")]⟩, ⟨2000, some [("a", "v1.1.0"), ("b", "v1.1.0")]⟩] =
      ⟨[("a", "v1.1.0")], [⟨"a", "v1.0.0", "v1.1.0", lagDays 2000 2000, 2000⟩], false, 0⟩ ∧
    lookupA [("a", "v1.1.0")] "b" = none := by
  constructor
  · decide
  · decide

/-- Claim C4 amended: a dependency that has no `RunningBaseline` entry yet
(present for the first time) is skipped by the per-dependency body — the
state is returned unchanged, so only dependencies with an existing,
differing baseline entry are examined under steps a–e. -/
theorem c4_first_seen_skipped (rel : String → String → Option Int)
    (maxChanges ctime : Int) (s : EngState) (dep newV : String)
    (hlk : lookupA s.prev dep = none) :
    stepDep rel maxChanges ctime s dep newV = s := by
  apply stepDep_skip
  left
  simp [classifyDep, hlk]

/-- Witness for the amended C4 at a concrete first-seen dependency. -/
theorem c4_witness :
    lookupA ([("a", "v1.0.0")] : List (String × String)) "b" = none ∧
    stepDep (fun _ _ => some 2000) (-1) 2000 ⟨[("a", "v1.0.0")], [], false, 0⟩ "b" "v1.1.0" =
      ⟨[("a", "v1.0.0")], [], false, 0⟩ :=
  ⟨by decide,
    c4_first_seen_skipped (fun _ _ => some 2000) (-1) 2000
      ⟨[("a", "v1.0.0")], [], false, 0⟩ "b" "v1.1.0" (by decide)⟩

/-! ## Claim C5 -/

/-- With an empty baseline every snapshot entry is first-seen, so the
per-dependency body never changes the state. -/
theorem stepDep_prev_nil (rel : String → String → Option Int) (maxChanges ctime : Int)
    (s : EngState) (dep newV : String) (h : s.prev = []) :
    stepDep rel maxChanges ctime s dep newV = s := by
  apply stepDep_skip
  left
  simp [classifyDep, h, lookupA]

/-- Folding the per-dependency body over any snapshot from a state with
an empty baseline returns the state unchanged. -/
theorem foldDeps_prev_nil (rel : String → String → Option Int) (maxChanges ctime : Int)
    (curr : List (String × String)) (s : EngState) (h : s.prev = []) :
    curr.foldl (fun s' kv => stepDep rel maxChanges ctime s' kv.1 kv.2) s = s := by
  induction curr with
  | nil => rfl
  | cons kv rest ih =>
    simp only [List.foldl_cons, stepDep_prev_nil rel maxChanges ctime s kv.1 kv.2 h]
    exact ih

/-- A tracking-phase commit (walk index ≠ 0) processed from the initial
state leaves the initial state unchanged. -/
theorem processCommit_initES (rel : String → String → Option Int) (maxChanges : Int)
    (idx : Nat) (c : CommitM) (hidx : idx ≠ 0) :
    processCommit rel maxChanges initES idx c = initES := by
  unfold processCommit
  cases hs : c.snap with
  | none => simp [initES]
  | some curr =>
    simp only [initES, if_false, hidx]
    exact foldDeps_prev_nil rel maxChanges c.time curr ⟨[], [], false, 0⟩ rfl

/-- The engine fold over commits enumerated from a positive start index
never initializes the baseline and stays in the initial state. -/
theorem foldCommits_initES (rel : String → String → Option Int) (maxChanges : Int)
    (cs : List CommitM) (n : Nat) (hn : n ≠ 0) :
    (cs.enumFrom n).foldl (fun s ic => processCommit rel maxChanges s ic.1 ic.2) initES =
      initES := by
  induction cs generalizing n with
  | nil => rfl
  | cons c rest ih =>
    simp only [List.enumFrom, List.foldl_cons]
    rw [processCommit_initES rel maxChanges n c hn]
    exact ih (n + 1) (Nat.succ_ne_zero n)

/-- Counterexample for claim C5.  The first walked commit yields no
manifest content and the second does; the run ends with an **empty**
baseline, not with the second commit's snapshot `[("a", "v1.0.0")]` as
the claim asserts. -/
theorem c5_counterexample :
    (runEngine (fun _ _ => none) (-1)
        [⟨1000, none⟩, ⟨2000, some [("a", "v1.0.0")]⟩]).prev = [] ∧
    ([] : List (String × String)) ≠ [("a", "v1.0.0")] := by
  constructor
  · decide
  · decide

/-- Claim C5 amended: a visited commit with no retrievable manifest
content is skipped entirely (no events, no state change); but the
baseline is initialized only by the commit at walk index 0 — when that
commit is skipped, every later snapshot is diffed against the empty
baseline, so the baseline is never initialized and the run emits no
events at all. -/
theorem c5_skip_and_init_only_first_index (rel : String → String → Option Int)
    (maxChanges : Int) :
    (∀ (s : EngState) (idx : Nat) (t : Int),
      processCommit rel maxChanges s idx ⟨t, none⟩ = s) ∧
    (∀ (t : Int) (cs : List CommitM),
      runEngine rel maxChanges (⟨t, none⟩ :: cs) = initES) := by
  constructor
  · intro s idx t
    by_cases hh : s.halted <;> simp [processCommit, hh]
  · intro t cs
    unfold runEngine
    simp only [List.enum, List.enumFrom, List.foldl_cons]
    have h0 : processCommit rel maxChanges initES 0 ⟨t, none⟩ = initES := by
      simp [processCommit, initES]
    rw [h0]
    exact foldCommits_initES rel maxChanges cs 1 one_ne_zero

/-! ## Claim C7 -/

/-- A halted state short-circuits the per-dependency body. -/
theorem stepDep_halted (rel : String → String → Option Int) (maxChanges ctime : Int)
    (s : EngState) (dep newV : String) (hh : s.halted = true) :
    stepDep rel maxChanges ctime s dep newV = s := by
  unfold stepDep
  simp [hh]

/-- When an accepted entry fires the stopping rule, the body emits the
sample and halts without advancing the baseline. -/
theorem stepDep_accept_stop (rel : String → String → Option Int) (maxChanges ctime : Int)
    (s : EngState) (dep newV oldV : String) (lag : ℚ)
    (hh : s.halted = false)
    (hcd : classifyDep rel ctime s.prev dep newV = .accepted oldV lag)
    (hstop : 0 < maxChanges ∧
      maxChanges ≤ ((s.out ++ [Delay.mk dep oldV newV lag ctime]).length : Int)) :
    stepDep rel maxChanges ctime s dep newV =
      { s with out := s.out ++ [Delay.mk dep oldV newV lag ctime], halted := true } := by
  have hstop' : 0 < maxChanges ∧ maxChanges ≤ (s.out.length : Int) + 1 := by
    simpa using hstop
  unfold stepDep
  simp [hh, hcd, hstop'.1, hstop'.2]

/-- When an accepted entry does not fire the stopping rule, the body
emits the sample and advances the baseline. -/
theorem stepDep_accept_go (rel : String → String → Option Int) (maxChanges ctime : Int)
    (s : EngState) (dep newV oldV : String) (lag : ℚ)
    (hh : s.halted = false)
    (hcd : classifyDep rel ctime s.prev dep newV = .accepted oldV lag)
    (hstop : ¬(0 < maxChanges ∧
      maxChanges ≤ ((s.out ++ [Delay.mk dep oldV newV lag ctime]).length : Int))) :
    stepDep rel maxChanges ctime s dep newV =
      { s with prev := insertA s.prev dep newV,
               out := s.out ++ [Delay.mk dep oldV newV lag ctime] } := by
  have hstop' : ¬(0 < maxChanges ∧ maxChanges ≤ (s.out.length : Int) + 1) := by
    simpa using hstop
  unfold stepDep
  simp [hh, hcd, hstop']

/-- An implausible-lag entry only ticks the ghost discard counter. -/
theorem stepDep_lagOutOfRange (rel : String → String → Option Int) (maxChanges ctime : Int)
    (s : EngState) (dep newV oldV : String) (lag : ℚ)
    (hh : s.halted = false)
    (hcd : classifyDep rel ctime s.prev dep newV = .lagOutOfRange oldV lag) :
    stepDep rel maxChanges ctime s dep newV = { s with discarded := s.discarded + 1 } := by
  unfold stepDep
  simp [hh, hcd]

/-- The per-dependency body preserves the accepted-change budget
invariant: a halted state holds exactly `maxChanges` samples, a running
state fewer. -/
theorem stepDep_budget (rel : String → String → Option Int) (maxChanges ctime : Int)
    (s : EngState) (dep newV : String) (hmc : 0 < maxChanges)
    (h1 : s.halted = true → (s.out.length : Int) = maxChanges)
    (h2 : s.halted = false → (s.out.length : Int) < maxChanges) :
    ((stepDep rel maxChanges ctime s dep newV).halted = true →
      ((stepDep rel maxChanges ctime s dep newV).out.length : Int) = maxChanges) ∧
    ((stepDep rel maxChanges ctime s dep newV).halted = false →
      ((stepDep rel maxChanges ctime s dep newV).out.length : Int) < maxChanges) := by
  by_cases hh : s.halted
  · rw [stepDep_halted rel maxChanges ctime s dep newV hh]
    exact ⟨h1, h2⟩
  · have hh' : s.halted = false := by simpa using hh
    have hlt := h2 hh'
    cases hcd : classifyDep rel ctime s.prev dep newV with
    | accepted oldV lag =>
      have hlen : ((s.out ++ [Delay.mk dep oldV newV lag ctime]).length : Int) =
          (s.out.length : Int) + 1 := by simp
      by_cases hstop : 0 < maxChanges ∧
          maxChanges ≤ ((s.out ++ [Delay.mk dep oldV newV lag ctime]).length : Int)
      · rw [stepDep_accept_stop rel maxChanges ctime s dep newV oldV lag hh' hcd hstop]
        refine ⟨fun _ => ?_, fun hc => by simp at hc⟩
        have hs2 := hstop.2
        rw [hlen] at hs2
        show ((s.out ++ [Delay.mk dep oldV newV lag ctime]).length : Int) = maxChanges
        rw [hlen]
        omega
      · rw [stepDep_accept_go rel maxChanges ctime s dep newV oldV lag hh' hcd hstop]
        refine ⟨fun hc => ?_, fun _ => ?_⟩
        · rw [hh'] at hc
          simp at hc
        · rw [hlen] at hstop
          show ((s.out ++ [Delay.mk dep oldV newV lag ctime]).length : Int) < maxChanges
          rw [hlen]
          omega
    | lagOutOfRange oldV lag =>
      rw [stepDep_lagOutOfRange rel maxChanges ctime s dep newV oldV lag hh' hcd]
      exact ⟨h1, h2⟩
    | firstSeen =>
      rw [stepDep_skip rel maxChanges ctime s dep newV (Or.inl hcd)]
      exact ⟨h1, h2⟩
    | unchanged =>
      rw [stepDep_skip rel maxChanges ctime s dep newV (Or.inr (Or.inl hcd))]
      exact ⟨h1, h2⟩
    | invalidVer =>
      rw [stepDep_skip rel maxChanges ctime s dep newV (Or.inr (Or.inr (Or.inl hcd)))]
      exact ⟨h1, h2⟩
    | notGreater =>
      rw [stepDep_skip rel maxChanges ctime s dep newV (Or.inr (Or.inr (Or.inr (Or.inl hcd))))]
      exact ⟨h1, h2⟩
    | unresolved =>
      rw [stepDep_skip rel maxChanges ctime s dep newV (Or.inr (Or.inr (Or.inr (Or.inr hcd))))]
      exact ⟨h1, h2⟩

/-- The budget invariant is preserved by folding the per-dependency body
over a snapshot. -/
theorem foldDeps_budget (rel : String → String → Option Int) (maxChanges ctime : Int)
    (curr : List (String × String)) (s : EngState) (hmc : 0 < maxChanges)
    (h1 : s.halted = true → (s.out.length : Int) = maxChanges)
    (h2 : s.halted = false → (s.out.length : Int) < maxChanges) :
    ((curr.foldl (fun s' kv => stepDep rel maxChanges ctime s' kv.1 kv.2) s).halted = true →
      (((curr.foldl (fun s' kv => stepDep rel maxChanges ctime s' kv.1 kv.2) s).out.length : Int) =
        maxChanges)) ∧
    ((curr.foldl (fun s' kv => stepDep rel maxChanges ctime s' kv.1 kv.2) s).halted = false →
      (((curr.foldl (fun s' kv => stepDep rel maxChanges ctime s' kv.1 kv.2) s).out.length : Int) <
        maxChanges)) := by
  induction curr generalizing s with
  | nil => exact ⟨h1, h2⟩
  | cons kv rest ih =>
    simp only [List.foldl_cons]
    have hstep := stepDep_budget rel maxChanges ctime s kv.1 kv.2 hmc h1 h2
    exact ih (stepDep rel maxChanges ctime s kv.1 kv.2) hstep.1 hstep.2

/-- The budget invariant is preserved by one commit iteration. -/
theorem processCommit_budget (rel : String → String → Option Int) (maxChanges : Int)
    (s : EngState) (idx : Nat) (c : CommitM) (hmc : 0 < maxChanges)
    (h1 : s.halted = true → (s.out.length : Int) = maxChanges)
    (h2 : s.halted = false → (s.out.length : Int) < maxChanges) :
    ((processCommit rel maxChanges s idx c).halted = true →
      ((processCommit rel maxChanges s idx c).out.length : Int) = maxChanges) ∧
    ((processCommit rel maxChanges s idx c).halted = false →
      ((processCommit rel maxChanges s idx c).out.length : Int) < maxChanges) := by
  by_cases hh : s.halted
  · have hs : processCommit rel maxChanges s idx c = s := by
      unfold processCommit
      simp [hh]
    rw [hs]
    exact ⟨h1, h2⟩
  · have hh' : s.halted = false := by simpa using hh
    cases hsnap : c.snap with
    | none =>
      have hs : processCommit rel maxChanges s idx c = s := by
        unfold processCommit
        simp [hh', hsnap]
      rw [hs]
      exact ⟨h1, h2⟩
    | some curr =>
      by_cases hidx : idx = 0
      · have hs : processCommit rel maxChanges s idx c = { s with prev := curr } := by
          unfold processCommit
          simp [hh', hsnap, hidx]
        rw [hs]
        exact ⟨h1, h2⟩
      · have hs : processCommit rel maxChanges s idx c =
            curr.foldl (fun s' kv => stepDep rel maxChanges c.time s' kv.1 kv.2) s := by
          unfold processCommit
          simp [hh', hsnap, hidx]
        rw [hs]
        exact foldDeps_budget rel maxChanges c.time curr s hmc h1 h2

/-- The budget invariant is preserved along the whole enumerated commit
fold. -/
theorem foldCommits_budget (rel : String → String → Option Int) (maxChanges : Int)
    (l : List (Nat × CommitM)) (s : EngState) (hmc : 0 < maxChanges)
    (h1 : s.halted = true → (s.out.length : Int) = maxChanges)
    (h2 : s.halted = false → (s.out.length : Int) < maxChanges) :
    ((l.foldl (fun s' ic => processCommit rel maxChanges s' ic.1 ic.2) s).halted = true →
      ((l.foldl (fun s' ic => processCommit rel maxChanges s' ic.1 ic.2) s).out.length : Int) =
        maxChanges) ∧
    ((l.foldl (fun s' ic => processCommit rel maxChanges s' ic.1 ic.2) s).halted = false →
      ((l.foldl (fun s' ic => processCommit rel maxChanges s' ic.1 ic.2) s).out.length : Int) <
        maxChanges) := by
  induction l generalizing s with
  | nil => exact ⟨h1, h2⟩
  | cons ic rest ih =>
    simp only [List.foldl_cons]
    have hstep := processCommit_budget rel maxChanges s ic.1 ic.2 hmc h1 h2
    exact ih (processCommit rel maxChanges s ic.1 ic.2) hstep.1 hstep.2

/-- Counterexample for claim C7.  With accepted-change count 1, a run
containing one implausible-lag (discarded) event and one accepted event
produces 1 `LagSample` **and** 1 discarded event — 2
LagSamples-or-discarded-events, not "exactly 1" as the claim counts
discarded events toward the budget. -/
theorem c7_counterexample :
    (runEngine (fun _ v => if v = "v2.0.0" then some 950400 else some 2000) 1
        [⟨1000, some [("a", "v1.0.0")]⟩, ⟨2000, some [("a", "v2.0.0")]⟩,
          ⟨3000, some [("a", "v3.0.0")]⟩]).out.length = 1 ∧
    (runEngine (fun _ v => if v = "v2.0.0" then some 950400 else some 2000) 1
        [⟨1000, some [("a", "v1.0.0")]⟩, ⟨2000, some [("a", "v2.0.0")]⟩,
          ⟨3000, some [("a", "v3.0.0")]⟩]).discarded = 1 ∧
    (runEngine (fun _ v => if v = "v2.0.0" then some 950400 else some 2000) 1
        [⟨1000, some [("a", "v1.0.0")]⟩, ⟨2000, some [("a", "v2.0.0")]⟩,
          ⟨3000, some [("a", "v3.0.0")]⟩]).out.length +
      (runEngine (fun _ v => if v = "v2.0.0" then some 950400 else some 2000) 1
        [⟨1000, some [("a", "v1.0.0")]⟩, ⟨2000, some [("a", "v2.0.0")]⟩,
          ⟨3000, some [("a", "v3.0.0")]⟩]).discarded ≠ 1 := by
  refine ⟨by decide, by decide, by decide⟩

/-- Claim C7 amended: with a configured accepted-change count N > 0 the
run produces exactly N `LagSample`s when the rule fires (and fewer when
history is exhausted first); a halted state stops all further commit
processing immediately.  Discarded (implausible-lag) events do not count
toward the budget. -/
theorem c7_stop_exactly_n_samples (rel : String → String → Option Int)
    (maxChanges : Int) (commits : List CommitM) (hmc : 0 < maxChanges) :
    ((runEngine rel maxChanges commits).halted = true →
      ((runEngine rel maxChanges commits).out.length : Int) = maxChanges) ∧
    ((runEngine rel maxChanges commits).halted = false →
      ((runEngine rel maxChanges commits).out.length : Int) < maxChanges) ∧
    (∀ (s : EngState) (idx : Nat) (c : CommitM), s.halted = true →
      processCommit rel maxChanges s idx c = s) := by
  have hrun := foldCommits_budget rel maxChanges commits.enum initES hmc
    (by intro h; simp [initES] at h) (by intro _; simpa [initES] using hmc)
  refine ⟨hrun.1, hrun.2, ?_⟩
  intro s idx c hs
  simp [processCommit, hs]

/-- Witness for the amended C7: the counterexample's run fires the rule
and holds exactly one sample. -/
theorem c7_witness :
    (runEngine (fun _ v => if v = "v2.0.0" then some 950400 else some 2000) 1
        [⟨1000, some [("a", "v1.0.0")]⟩, ⟨2000, some [("a", "v2.0.0")]⟩,
          ⟨3000, some [("a", "v3.0.0")]⟩]).halted = true ∧
    ((runEngine (fun _ v => if v = "v2.0.0" then some 950400 else some 2000) 1
        [⟨1000, some [("a", "v1.0.0")]⟩, ⟨2000, some [("a", "v2.0.0")]⟩,
          ⟨3000, some [("a", "v3.0.0")]⟩]).out.length : Int) = 1 :=
  ⟨by decide,
    (c7_stop_exactly_n_samples (fun _ v => if v = "v2.0.0" then some 950400 else some 2000) 1
      [⟨1000, some [("a", "v1.0.0")]⟩, ⟨2000, some [("a", "v2.0.0")]⟩,
        ⟨3000, some [("a", "v3.0.0")]⟩] (by decide)).1 (by decide)⟩

/-! ## Claim C6 -/

/-- Claim C6 (confirmed).  For canonicalizable version pairs: when
`canonical(a) < canonical(b)`, the change from `a` to `b` is classified
as an upgrade and the engine proceeds to release-time resolution; when
`canonical(b) ≤ canonical(a)` — including an unchanged declared value —
the per-dependency body leaves the state unchanged, so no `UpdateEvent`
is ever produced for the pair. -/
theorem c6_upgrade_classification (rel : String → String → Option Int) (ctime : Int)
    (s : EngState) (dep a b : String)
    (hlk : lookupA s.prev dep = some a)
    (ha : canon a ≠ "") (hb : canon b ≠ "") :
    (semverCompare (canon a) (canon b) < 0 →
      (classifyDep rel ctime s.prev dep b).reachedResolver = true) ∧
    (0 ≤ semverCompare (canon a) (canon b) →
      ∀ maxChanges, stepDep rel maxChanges ctime s dep b = s) := by
  constructor
  · intro hlt
    have hab : a ≠ b := by
      intro h
      rw [h] at hlt
      rw [semverCompare_self] at hlt
      exact absurd hlt (by norm_num)
    have hor : ¬ (canon a = "" ∨ canon b = "") := by
      rintro (h | h)
      · exact ha h
      · exact hb h
    have hnle : ¬ 0 ≤ semverCompare (canon a) (canon b) := by omega
    unfold classifyDep
    rw [hlk]
    simp only [hab, if_false, hor, hnle]
    cases hr : rel dep b with
    | none => simp [DepOutcome.reachedResolver]
    | some r =>
      by_cases hd : lagDays ctime r < 0 ∨ 365 < lagDays ctime r <;>
        simp [hd, DepOutcome.reachedResolver]
  · intro hge maxChanges
    exact stepDep_skip rel maxChanges ctime s dep b
      (Or.inr (classifyDep_of_rejected rel ctime s.prev dep b a hlk
        (Or.inr (Or.inr (Or.inr (Or.inl hge))))))

/-- Witness for C6 at the canonicalizable pair `1.0.0` / `1.1.0`. -/
theorem c6_witness :
    (canon "1.0.0" ≠ "" ∧ canon "1.1.0" ≠ "" ∧
      semverCompare (canon "1.0.0") (canon "1.1.0") < 0) ∧
    (classifyDep (fun _ _ => none) 2000 [("d", "1.0.0")] "d" "1.1.0").reachedResolver = true :=
  ⟨by decide,
    (c6_upgrade_classification (fun _ _ => none) 2000 ⟨[("d", "1.0.0")], [], false, 0⟩
        "d" "1.0.0" "1.1.0" (by decide) (by decide) (by decide)).1 (by decide)⟩

/-! ## Claim C8 -/

/-- Counterexample for claim C8.  With the Go resolver, after a first
lookup of `("m", "v1")` (one fetch) a second lookup for the **different
version** `"v2"` of the same module performs another network fetch — the
claim asserts any subsequent lookup for the same dependency performs no
further query. -/
theorem c8_counterexample :
    (goRelTime (fun _ _ => some 42) [] "m" "v1").2.2 = 1 ∧
    (goRelTime (fun _ _ => some 42)
        (goRelTime (fun _ _ => some 42) [] "m" "v1").2.1 "m" "v2").2.2 = 1 ∧
    (goRelTime (fun _ _ => some 42)
        (goRelTime (fun _ _ => some 42) [] "m" "v1").2.1 "m" "v2").2.2 ≠ 0 := by
  refine ⟨by decide, by decide, by decide⟩

/-- Claim C8 amended: only the npm resolver (`timeCache.get`) caches the
full version→timestamp map — it answers cached (package, known version)
pairs with no fetch, and a first fetch for an uncached package stores
the whole map so that any later lookup of a version present in it costs
no fetch.  The Go resolver (`goRelTime`) and the PyPI resolver (`pyRel`)
cache only the single (name, version) entry they fetched, so a lookup
for a version missing from the name's cache entry always performs a
network fetch, even when earlier lookups already hit the same name
(for `pyRel`, even though its response carried every release). -/
theorem c8_cache_semantics (fetch : String → Option (List (String × Int)))
    (gfetch : String → String → Option Int)
    (pfetch : String → Option (List (String × Int))) :
    (∀ (c : RelCache) (pkg ver : String) (m : List (String × Int)) (t : Int),
      lookupA c pkg = some m → lookupA m ver = some t →
      timeCacheGet fetch c pkg ver = (some t, c, 0)) ∧
    (∀ (c : RelCache) (pkg ver : String) (mm : List (String × Int)),
      lookupA c pkg = none → fetch pkg = some mm →
      (timeCacheGet fetch c pkg ver).2.1 = insertA c pkg mm ∧
      (timeCacheGet fetch c pkg ver).2.2 = 1 ∧
      (∀ (ver' : String) (t' : Int), lookupA mm ver' = some t' →
        timeCacheGet fetch (insertA c pkg mm) pkg ver' = (some t', insertA c pkg mm, 0))) ∧
    (∀ (c : RelCache) (module ver : String) (m : List (String × Int)),
      lookupA c module = some m → lookupA m ver = none →
      (goRelTime gfetch c module ver).2.2 = 1) ∧
    (∀ (c : RelCache) (pkg ver : String) (m : List (String × Int)) (t : Int),
      lookupA c (strLower pkg) = some m → lookupA m ver = some t →
      pyRel pfetch c pkg ver = (some t, c, 0)) ∧
    (∀ (c : RelCache) (pkg ver : String) (m : List (String × Int)),
      lookupA c (strLower pkg) = some m → lookupA m ver = none →
      (pyRel pfetch c pkg ver).2.2 = 1) := by
  refine ⟨?_, ?_, ?_, ?_, ?_⟩
  · intro c pkg ver m t h1 h2
    simp [timeCacheGet, h1, h2]
  · intro c pkg ver mm h1 h2
    refine ⟨?_, ?_, ?_⟩
    · simp [timeCacheGet, timeCacheFetch, h1, h2]
    · simp [timeCacheGet, timeCacheFetch, h1, h2]
    · intro ver' t' h3
      simp [timeCacheGet, lookupA_insertA_self, h3]
  · intro c module ver m h1 h2
    cases h3 : gfetch module ver with
    | none => simp [goRelTime, h1, h2, h3]
    | some t => simp [goRelTime, h1, h2, h3]
  · intro c pkg ver m t h1 h2
    simp [pyRel, h1, h2]
  · intro c pkg ver m h1 h2
    cases h3 : pfetch (strLower pkg) with
    | none => simp [pyRel, h1, h2, h3]
    | some rel =>
      cases h4 : lookupA rel ver with
      | none => simp [pyRel, h1, h2, h3, h4]
      | some t => simp [pyRel, h1, h2, h3, h4]

/-- Witness for the amended C8: a concrete npm-style fetch caches both
versions (the second lookup is free), while the concrete Go and PyPI
caches answer only the version they hold and refetch another version of
the same name. -/
theorem c8_witness :
    (timeCacheGet (fun _ => some [("v1", 5), ("v2", 7)]) [] "p" "v1").2.2 = 1 ∧
    timeCacheGet (fun _ => some [("v1", 5), ("v2", 7)])
        (insertA ([] : RelCache) "p" [("v1", 5), ("v2", 7)]) "p" "v2" =
      (some 7, insertA ([] : RelCache) "p" [("v1", 5), ("v2", 7)], 0) ∧
    (goRelTime (fun _ _ => some 42) [("m", [("v1", 42)])] "m" "v2").2.2 = 1 ∧
    pyRel (fun _ => some [("1.0", 50), ("2.0", 60)]) [("numpy", [("2.0", 60)])] "NumPy" "2.0" =
      (some 60, [("numpy", [("2.0", 60)])], 0) ∧
    (pyRel (fun _ => some [("1.0", 50), ("2.0", 60)])
        [("numpy", [("2.0", 60)])] "NumPy" "1.0").2.2 = 1 := by
  have h := c8_cache_semantics (fun _ => some [("v1", 5), ("v2", 7)]) (fun _ _ => some 42)
    (fun _ => some [("1.0", 50), ("2.0", 60)])
  have h2 := h.2.1 ([] : RelCache) "p" "v1" [("v1", 5), ("v2", 7)] (by decide) rfl
  exact ⟨h2.2.1, h2.2.2 "v2" 7 (by decide),
    h.2.2.1 [("m", [("v1", 42)])] "m" "v2" [("v1", 42)] (by decide) (by decide),
    h.2.2.2.1 [("numpy", [("2.0", 60)])] "NumPy" "2.0" [("2.0", 60)] 60 (by decide) (by decide),
    h.2.2.2.2 [("numpy", [("2.0", 60)])] "NumPy" "1.0" [("2.0", 60)] (by decide) (by decide)⟩

/-! ## Claim C9 -/

/-- Claim C9 (confirmed).  For a non-empty sample list, `mean` is the
arithmetic mean, and `median` is the middle element (odd length) or the
average of the two middle elements (even length) of **the** ascending
sorted arrangement `ys` of the samples; in particular `[1, 3, 5]` has
mean 3 and median 3, and `[1, 2, 4, 5]` has mean 3 and median 3. -/
theorem c9_mean_median (xs ys : List ℚ) (hne : xs ≠ []) (hperm : xs.Perm ys)
    (hsort : ys.Sorted (· ≤ ·)) :
    mean xs = xs.sum / (xs.length : ℚ) ∧
    median xs = (if ys.length % 2 = 0
      then (ys.getD (ys.length / 2 - 1) 0 + ys.getD (ys.length / 2) 0) / 2
      else ys.getD (ys.length / 2) 0) ∧
    mean [1, 3, 5] = 3 ∧ median [1, 3, 5] = 3 ∧
    mean [1, 2, 4, 5] = 3 ∧ median [1, 2, 4, 5] = 3 := by
  have hlen : xs.length ≠ 0 := by
    simpa using fun h => hne (List.length_eq_zero.mp h)
  have hsorteq : xs.insertionSort (· ≤ ·) = ys :=
    List.eq_of_perm_of_sorted ((List.perm_insertionSort _ xs).trans hperm)
      (List.sorted_insertionSort _ xs) hsort
  refine ⟨?_, ?_, ?_, ?_, ?_, ?_⟩
  · simp [mean, hlen, List.sum_eq_foldl]
  · simp only [median, hlen, if_false, hsorteq]
  · norm_num [mean]
  · norm_num [median, List.insertionSort, List.orderedInsert, List.getD]
  · norm_num [mean]
  · norm_num [median, List.insertionSort, List.orderedInsert, List.getD]

/-- Witness for C9 at `[1, 3, 5]` (its own sorted arrangement). -/
theorem c9_witness : mean [1, 3, 5] = 3 ∧ median [1, 3, 5] = 3 :=
  ⟨(c9_mean_median [1, 3, 5] [1, 3, 5] (by decide) (List.Perm.refl _) (by decide)).2.2.1,
    (c9_mean_median [1, 3, 5] [1, 3, 5] (by decide) (List.Perm.refl _) (by decide)).2.2.2.1⟩

/-! ## Claim C10 -/

theorem mem_keys_insertA {α β : Type} [DecidableEq α] (m : List (α × β)) (k a : α) (v : β)
    (h : a ∈ (insertA m k v).map Prod.fst) : a = k ∨ a ∈ m.map Prod.fst := by
  induction m with
  | nil => simpa [insertA] using h
  | cons hd tl ih =>
    obtain ⟨k0, v0⟩ := hd
    by_cases h0 : k0 = k
    · subst h0
      simp only [insertA, if_true, List.map_cons, List.mem_cons] at h
      rcases h with h | h
      · exact Or.inl h
      · exact Or.inr (by simp [h])
    · simp only [insertA, h0, if_false, List.map_cons, List.mem_cons] at h
      rcases h with h | h
      · exact Or.inr (by simp [h])
      · rcases ih h with h' | h'
        · exact Or.inl h'
        · exact Or.inr (by simp [h'])

theorem nodupKeys_insertA {α β : Type} [DecidableEq α] (m : List (α × β)) (k : α) (v : β)
    (h : (m.map Prod.fst).Nodup) : ((insertA m k v).map Prod.fst).Nodup := by
  induction m with
  | nil => simp [insertA]
  | cons hd tl ih =>
    obtain ⟨k0, v0⟩ := hd
    simp only [List.map_cons, List.nodup_cons] at h
    by_cases h0 : k0 = k
    · subst h0
      simp only [insertA, if_true, List.map_cons, List.nodup_cons]
      exact h
    · simp only [insertA, h0, if_false, List.map_cons, List.nodup_cons]
      refine ⟨fun hmem => ?_, ih h.2⟩
      rcases mem_keys_insertA tl k k0 v hmem with h' | h'
      · exact h0 h'
      · exact h.1 h'

theorem lookupA_foldl_insertA_not_mem {α β : Type} [DecidableEq α]
    (ps : List (α × β)) (acc : List (α × β)) (k : α) (h : k ∉ ps.map Prod.fst) :
    lookupA (ps.foldl (fun a kv => insertA a kv.1 kv.2) acc) k = lookupA acc k := by
  induction ps generalizing acc with
  | nil => rfl
  | cons p rest ih =>
    simp only [List.map_cons, List.mem_cons, not_or] at h
    simp only [List.foldl_cons]
    rw [ih (insertA acc p.1 p.2) h.2]
    exact lookupA_insertA_ne acc p.1 k p.2 h.1

theorem lookupA_foldl_insertA_of_nodup {α β : Type} [DecidableEq α]
    (ps : List (α × β)) (acc : List (α × β)) (k : α) (v : β)
    (hnd : (ps.map Prod.fst).Nodup) (h : lookupA ps k = some v) :
    lookupA (ps.foldl (fun a kv => insertA a kv.1 kv.2) acc) k = some v := by
  induction ps generalizing acc with
  | nil => simp [lookupA] at h
  | cons p rest ih =>
    obtain ⟨k0, v0⟩ := p
    simp only [List.map_cons, List.nodup_cons] at hnd
    simp only [List.foldl_cons]
    by_cases h0 : k0 = k
    · have hv : v0 = v := by
        simpa [lookupA, h0] using h
      have hnotmem : k ∉ rest.map Prod.fst := h0 ▸ hnd.1
      rw [lookupA_foldl_insertA_not_mem rest (insertA acc k0 v0) k hnotmem, ← hv, ← h0]
      exact lookupA_insertA_self acc k0 v0
    · simp only [lookupA, h0, if_false] at h
      exact ih (insertA acc k0 v0) hnd.2 h

theorem strLowerB_no_upper (s : List Nat) :
    ∀ b ∈ strLowerB s, ¬(65 ≤ b ∧ b ≤ 90) := by
  intro b hb
  simp only [strLowerB, List.mem_map] at hb
  obtain ⟨a, _, rfl⟩ := hb
  unfold lowerB
  split_ifs with h
  · omega
  · omega

theorem keys_pred_insertA {β : Type} (P : List Nat → Prop) (m : List (List Nat × β))
    (k : List Nat) (v : β) (hm : ∀ a ∈ m.map Prod.fst, P a) (hk : P k) :
    ∀ a ∈ (insertA m k v).map Prod.fst, P a := by
  intro a ha
  rcases mem_keys_insertA m k a v ha with h | h
  · exact h ▸ hk
  · exact hm a h

theorem keys_pred_addDep (P : List Nat → Prop) (hlow : ∀ s, P (strLowerB s))
    (dst : List (List Nat × List Nat)) (line : List Nat)
    (hm : ∀ a ∈ dst.map Prod.fst, P a) :
    ∀ a ∈ (addDep dst line).map Prod.fst, P a := by
  unfold addDep
  split_ifs with h
  · exact hm
  · cases hd : depLineMatchB line with
    | none => exact hm
    | some p => exact keys_pred_insertA P dst (strLowerB p.1) (trimConstraintB p.2) hm (hlow p.1)

theorem keys_pred_foldl_addDep (P : List Nat → Prop) (hlow : ∀ s, P (strLowerB s))
    (parts : List (List Nat)) (dst : List (List Nat × List Nat))
    (hm : ∀ a ∈ dst.map Prod.fst, P a) :
    ∀ a ∈ (parts.foldl addDep dst).map Prod.fst, P a := by
  induction parts generalizing dst with
  | nil => exact hm
  | cons p rest ih => exact ih (addDep dst p) (keys_pred_addDep P hlow dst p hm)

/-- The dependency map produced by one `cfgVersions` line is either
unchanged, one `addDep`, or a fold of `addDep` over inline entries. -/
theorem cfgLineStep_snd_cases (st : Bool × List (List Nat × List Nat)) (raw : List Nat) :
    (cfgLineStep st raw).2 = st.2 ∨
    (cfgLineStep st raw).2 = addDep st.2 (goTrimSpaceB (trimRightCfgB raw)) ∨
    ∃ parts, (cfgLineStep st raw).2 = List.foldl addDep st.2 parts := by
  unfold cfgLineStep
  cases hk : keyRxMatchB (trimRightCfgB raw) with
  | some tail =>
    by_cases ht : goTrimSpaceB tail = []
    · simp [ht]
    · simp only [ht, if_false]
      exact Or.inr (Or.inr ⟨(goTrimSpaceB tail).splitOn 44, rfl⟩)
  | none =>
    by_cases hib : cfgInB st.1 (trimRightCfgB raw) = true
    · simp only [hib, if_true]
      by_cases hb : goTrimSpaceB (trimRightCfgB raw) = []
      · simp [hb]
      · simp only [hb, if_false]
        by_cases hr : raw.head? = some 32 ∨ raw.head? = some 9
        · simp [hr]
        · simp [hr]
    · simp [hib]

theorem keys_pred_cfgLineStep (P : List Nat → Prop) (hlow : ∀ s, P (strLowerB s))
    (st : Bool × List (List Nat × List Nat)) (raw : List Nat)
    (hm : ∀ a ∈ st.2.map Prod.fst, P a) :
    ∀ a ∈ (cfgLineStep st raw).2.map Prod.fst, P a := by
  rcases cfgLineStep_snd_cases st raw with h | h | ⟨parts, h⟩
  · rw [h]
    exact hm
  · rw [h]
    exact keys_pred_addDep P hlow st.2 _ hm
  · rw [h]
    exact keys_pred_foldl_addDep P hlow parts st.2 hm

theorem keys_pred_cfgVersions (P : List Nat → Prop) (hlow : ∀ s, P (strLowerB s))
    (txt : List Nat) : ∀ a ∈ (cfgVersions txt).map Prod.fst, P a := by
  unfold cfgVersions
  generalize (txt.splitOn 10) = lines
  have : ∀ (st : Bool × List (List Nat × List Nat)), (∀ a ∈ st.2.map Prod.fst, P a) →
      ∀ a ∈ (lines.foldl cfgLineStep st).2.map Prod.fst, P a := by
    induction lines with
    | nil => exact fun st hm => hm
    | cons l rest ih =>
      intro st hm
      exact ih (cfgLineStep st l) (keys_pred_cfgLineStep P hlow st l hm)
  exact this (false, []) (by simp)

theorem keys_pred_pyVersions (P : List Nat → Prop) (hlow : ∀ s, P (strLowerB s))
    (txt : List Nat) : ∀ a ∈ (pyVersions txt).map Prod.fst, P a := by
  unfold pyVersions
  generalize (txt.splitOn 10) = lines
  have : ∀ (m : List (List Nat × List Nat)), (∀ a ∈ m.map Prod.fst, P a) →
      ∀ a ∈ (lines.foldl (fun m line =>
        let l := goTrimSpaceB line
        if l.head? = some 35 ∨ l = [] then m
        else
          match reqRxMatchB l with
          | some (nm, ver) => insertA m (strLowerB nm) ver
          | none => m) m).map Prod.fst, P a := by
    induction lines with
    | nil => exact fun m hm => hm
    | cons l rest ih =>
      intro m hm
      apply ih
      by_cases hskip : (goTrimSpaceB l).head? = some 35 ∨ goTrimSpaceB l = []
      · simpa [hskip] using hm
      · simp only [hskip, if_false]
        cases hr : reqRxMatchB (goTrimSpaceB l) with
        | none => exact hm
        | some p => exact keys_pred_insertA P m (strLowerB p.1) p.2 hm (hlow p.1)
  exact this [] (by simp)

theorem keys_pred_foldl_insertA (P : List Nat → Prop) (ps : List (List Nat × List Nat))
    (acc : List (List Nat × List Nat)) (hacc : ∀ a ∈ acc.map Prod.fst, P a)
    (hps : ∀ a ∈ ps.map Prod.fst, P a) :
    ∀ a ∈ (ps.foldl (fun a kv => insertA a kv.1 kv.2) acc).map Prod.fst, P a := by
  induction ps generalizing acc with
  | nil => exact hacc
  | cons p rest ih =>
    simp only [List.foldl_cons]
    refine ih (insertA acc p.1 p.2)
      (keys_pred_insertA P acc p.1 p.2 hacc (hps p.1 (by simp))) ?_
    intro a ha
    exact hps a (by simp [ha])

theorem nodupKeys_addDep (dst : List (List Nat × List Nat)) (line : List Nat)
    (h : (dst.map Prod.fst).Nodup) : ((addDep dst line).map Prod.fst).Nodup := by
  unfold addDep
  split_ifs with h1
  · exact h
  · cases hd : depLineMatchB line with
    | none => exact h
    | some p => exact nodupKeys_insertA dst (strLowerB p.1) (trimConstraintB p.2) h

theorem nodupKeys_foldl_addDep (parts : List (List Nat)) (dst : List (List Nat × List Nat))
    (h : (dst.map Prod.fst).Nodup) :
    (((parts.foldl addDep dst).map Prod.fst)).Nodup := by
  induction parts generalizing dst with
  | nil => exact h
  | cons p rest ih => exact ih (addDep dst p) (nodupKeys_addDep dst p h)

theorem nodupKeys_cfgLineStep (st : Bool × List (List Nat × List Nat)) (raw : List Nat)
    (h : (st.2.map Prod.fst).Nodup) : ((cfgLineStep st raw).2.map Prod.fst).Nodup := by
  rcases cfgLineStep_snd_cases st raw with h' | h' | ⟨parts, h'⟩
  · rw [h']
    exact h
  · rw [h']
    exact nodupKeys_addDep st.2 _ h
  · rw [h']
    exact nodupKeys_foldl_addDep parts st.2 h

theorem nodupKeys_cfgVersions (txt : List Nat) :
    ((cfgVersions txt).map Prod.fst).Nodup := by
  unfold cfgVersions
  generalize (txt.splitOn 10) = lines
  have : ∀ (st : Bool × List (List Nat × List Nat)), (st.2.map Prod.fst).Nodup →
      ((lines.foldl cfgLineStep st).2.map Prod.fst).Nodup := by
    induction lines with
    | nil => exact fun st h => h
    | cons l rest ih => exact fun st h => ih (cfgLineStep st l) (nodupKeys_cfgLineStep st l h)
  exact this (false, []) (by simp)

/-- Claim C10 (confirmed).  Every key of a Python-ecosystem snapshot is
lower-cased: `pyVersions` and `addDep` (hence `cfgVersions`) lower-case
every name they record, and the `analyzePy` merge preserves this, so
name collisions between `requirements.txt` and `setup.cfg` are matched
case-insensitively and `setup.cfg` entries override on the shared
lower-cased key. -/
theorem keys_pred_pySourceMap (P : List Nat → Prop)
    (extract : List Nat → List (List Nat × List Nat))
    (hext : ∀ t, ∀ a ∈ (extract t).map Prod.fst, P a)
    (txt : Option (List Nat)) (acc : List (List Nat × List Nat))
    (hacc : ∀ a ∈ acc.map Prod.fst, P a) :
    ∀ a ∈ (pySourceMap extract txt acc).map Prod.fst, P a := by
  cases txt with
  | none => exact hacc
  | some t =>
    by_cases ht : t ≠ []
    · simp only [pySourceMap]
      rw [if_pos ht]
      exact keys_pred_foldl_insertA P (extract t) acc hacc (hext t)
    · simp only [pySourceMap]
      rw [if_neg ht]
      exact hacc

theorem keys_pred_pySnapshot (P : List Nat → Prop) (hlow : ∀ s, P (strLowerB s))
    (req cfg : Option (List Nat)) : ∀ a ∈ (pySnapshot req cfg).map Prod.fst, P a := by
  unfold pySnapshot
  exact keys_pred_pySourceMap P cfgVersions (keys_pred_cfgVersions P hlow) cfg _
    (keys_pred_pySourceMap P pyVersions (keys_pred_pyVersions P hlow) req [] (by simp))

theorem c10_py_names_lowercased (req cfg : Option (List Nat)) (t : List Nat) :
    (∀ k ∈ (pySnapshot req cfg).map Prod.fst, ∀ b ∈ k, ¬(65 ≤ b ∧ b ≤ 90)) ∧
    (∀ (k v : List Nat), lookupA (cfgVersions t) k = some v →
      lookupA (pySnapshot req (some t)) k = some v) := by
  constructor
  · exact keys_pred_pySnapshot (fun k => ∀ b ∈ k, ¬(65 ≤ b ∧ b ≤ 90))
      strLowerB_no_upper req cfg
  · intro k v h
    have ht : t ≠ [] := by
      intro h0
      rw [h0] at h
      simp [cfgVersions, lookupA] at h
    unfold pySnapshot
    simp only [pySourceMap]
    rw [if_pos ht]
    exact lookupA_foldl_insertA_of_nodup (cfgVersions t) _ k v (nodupKeys_cfgVersions t) h

/-- Witness for C10: the capitalized requirement `Foo==1.0` and the
`setup.cfg` entry `foo>=2.0` collide on the lower-cased key `foo`, which
carries the `setup.cfg` value and contains no uppercase byte. -/
theorem c10_witness :
    bsASCII "foo" ∈ (pySnapshot (some (bsASCII "Foo==1.0"))
      (some (bsASCII "install_requires = foo>=2.0"))).map Prod.fst ∧
    ¬(65 ≤ 102 ∧ (102 : Nat) ≤ 90) ∧
    lookupA (pySnapshot (some (bsASCII "Foo==1.0"))
      (some (bsASCII "install_requires = foo>=2.0"))) (bsASCII "foo") = some (bsASCII "2.0") := by
  have h := c10_py_names_lowercased (some (bsASCII "Foo==1.0"))
    (some (bsASCII "install_requires = foo>=2.0")) (bsASCII "install_requires = foo>=2.0")
  exact ⟨by decide, h.1 (bsASCII "foo") (by decide) 102 (by decide),
    h.2 (bsASCII "foo") (bsASCII "2.0") (by decide)⟩

end Mttu
